import Mathlib

/-!
# Verification of the ladon ABAC decision core (`ladon.go`)

Shallow embedding of the decision engine in `ladon.go`:
`DoPoliciesAllow`, `passesConditions`, `lazyInit` and `IsAllowed`, together
with the collaborator interfaces they consume (`Request`, `Policy`,
`Condition`, `Matcher`, `Manager`) and the sentinel errors.

The engine's calls to its collaborators (Matcher probes, Condition probes,
AuditLogger and Metric notifications) are recorded in an event trace, in
source order.  Each event carries an `async` flag that is `true` exactly
when the source dispatches the call in a fresh goroutine (`go ...`);
synchronous calls carry `false`.  The Go `errors.WithStack` annotation is
modelled by the explicit `GoError.withStack` constructor, so the theorems
can distinguish a wrapped error from a bare one.
-/

/-- Go's `context.Context` parameter: opaque to the engine, threaded through
unchanged to the collaborators. -/
abbrev GoCtx := Unit

/-- Modelled from the spec: `Request` (§3) — the shapes live outside
`ladon.go`.  A request has `subject`, `action`, `resource` strings and a
`context` mapping from string keys to opaque attribute values; an absent
key yields the mapping's zero value, modelled as `none`. -/
structure LRequest where
  resource : String
  action : String
  subject : String
  context : String → Option String

/-- Modelled from the spec: `Condition` (§3) — a stateless capability
`Fulfills(ctx, contextValue, request) -> bool`, no error channel. -/
structure Condition where
  fulfills : GoCtx → Option String → LRequest → Bool

/-- Modelled from the spec: `Policy` (§3) — the capability set
{GetActions, GetSubjects, GetResources, GetConditions, AllowAccess}.
`conditions` is the condition map as an association list with unique keys
(Go map iteration order is arbitrary; order-independence is proved
separately). -/
structure Policy where
  actions : List String
  subjects : List String
  resources : List String
  conditions : List (String × Condition)
  allowAccess : Bool

/-- Modelled from the spec: the `Matcher` capability (§3/§6) —
`Matches(policy, patternSet, candidateString) -> (bool, error)`.
Errors are opaque values, modelled as strings. -/
abbrev Matcher := Policy → List String → String → Except String Bool

/-- Modelled from the spec: the policy source (§6) —
`FindRequestCandidates(ctx, request) -> (policy list, error)`. -/
abbrev Manager := GoCtx → LRequest → Except String (List Policy)

/-- Modelled from the spec (§7): Go error values reaching the caller.
`errRequestDenied` and `errRequestForcefullyDenied` are the sentinel
errors; `external e` is an opaque error produced by a collaborator
(matcher or policy source); `withStack e` is the `errors.WithStack`
call-stack annotation applied by the engine. -/
inductive GoError
  | errRequestDenied
  | errRequestForcefullyDenied
  | external (e : String)
  | withStack (e : GoError)
  deriving DecidableEq, Repr

/-- The three pattern dimensions matched by the engine, in the order the
source checks them. -/
inductive Dim
  | action
  | subject
  | resource
  deriving DecidableEq, Repr

/-- A collaborator invocation made by the engine. -/
inductive Call
  | matcherMatches (d : Dim) (p : Policy) (pats : List String) (s : String)
  | conditionFulfills (p : Policy) (key : String) (v : Option String)
  | logGranted (r : LRequest) (cand decid : List Policy)
  | logRejected (r : LRequest) (cand decid : List Policy)
  | reqProcessingError (r : LRequest) (p : Option Policy) (e : String)
  | reqDeniedBy (r : LRequest) (p : Policy)
  | reqNoMatch (r : LRequest)
  | reqAllowedBy (r : LRequest) (ds : List Policy)

/-- One trace event: the collaborator call plus whether the source
dispatched it with `go` (fire-and-forget goroutine). -/
structure Event where
  call : Call
  async : Bool

/-- `passesConditions` (ladon.go:144-151), recursion over the condition
list mirroring the source's early-`return false` loop: each condition is
fulfilled against `r.Context[key]` and the full request. -/
def passesConditionsGo (ctx : GoCtx) (r : LRequest) : List (String × Condition) → Bool
  | [] => true
  | (key, condition) :: rest =>
    if condition.fulfills ctx (r.context key) r then passesConditionsGo ctx r rest
    else false

/-- `(l *Ladon) passesConditions(ctx, p, r)` from ladon.go:144-151. -/
def passesConditions (ctx : GoCtx) (p : Policy) (r : LRequest) : Bool :=
  passesConditionsGo ctx r p.conditions

/-- Traced variant of `passesConditionsGo`: same boolean, plus the
`Fulfills` probe events in evaluation order (stopping at the first failing
condition, like the source's early return). -/
def passesConditionsT (ctx : GoCtx) (p : Policy) (r : LRequest) :
    List (String × Condition) → Bool × List Event
  | [] => (true, [])
  | (key, condition) :: rest =>
    let ev : Event := ⟨.conditionFulfills p key (r.context key), false⟩
    if condition.fulfills ctx (r.context key) r then
      let (b, evs) := passesConditionsT ctx p r rest
      (b, ev :: evs)
    else (false, [ev])

/-- Result of the loop body of `DoPoliciesAllow` (ladon.go:79-129) for a
single candidate policy: skip to the next policy, abort with an error,
fully match with deny effect, or fully match with allow effect. -/
inductive StepRes
  | skip
  | fatal (e : GoError)
  | denyMatch
  | allowMatch
  deriving DecidableEq, Repr

/-- Loop body of `DoPoliciesAllow` (ladon.go:79-129): action match
(ladon.go:84-90, error wrapped with `errors.WithStack`), subject match
(ladon.go:95-101, error returned bare — note the source's `return err` on
line 97), resource match (ladon.go:104-110, error wrapped), conditions
(ladon.go:114-117), then the effect check (ladon.go:120).  Matcher failures
also spawn `go Metric.RequestProcessingError`. -/
def stepPolicy (M : Matcher) (ctx : GoCtx) (r : LRequest) (p : Policy) :
    StepRes × List Event :=
  let evA : Event := ⟨.matcherMatches .action p p.actions r.action, false⟩
  match M p p.actions r.action with
  | .error e => (.fatal (.withStack (.external e)),
      [evA, ⟨.reqProcessingError r (some p) e, true⟩])
  | .ok pm =>
    if !pm then (.skip, [evA])
    else
      let evS : Event := ⟨.matcherMatches .subject p p.subjects r.subject, false⟩
      match M p p.subjects r.subject with
      | .error e => (.fatal (.external e),
          [evA, evS, ⟨.reqProcessingError r (some p) e, true⟩])
      | .ok sm =>
        if !sm then (.skip, [evA, evS])
        else
          let evR : Event := ⟨.matcherMatches .resource p p.resources r.resource, false⟩
          match M p p.resources r.resource with
          | .error e => (.fatal (.withStack (.external e)),
              [evA, evS, evR, ⟨.reqProcessingError r (some p) e, true⟩])
          | .ok rm =>
            if !rm then (.skip, [evA, evS, evR])
            else
              let pc := passesConditionsT ctx p r p.conditions
              if !pc.1 then (.skip, evA :: evS :: evR :: pc.2)
              else if !p.allowAccess then (.denyMatch, evA :: evS :: evR :: pc.2)
              else (.allowMatch, evA :: evS :: evR :: pc.2)

/-- The candidate loop of `DoPoliciesAllow` with its accumulators
`allowed` and `deciders` (ladon.go:75-141).  `all` is the full candidate
list handed to the audit logger.  On a deny match the source appends the
policy to `deciders`, synchronously logs the rejected outcome, spawns
`go Metric.RequestDeniedBy`, and returns `ErrRequestForcefullyDenied`
wrapped with stack context (ladon.go:120-125).  After the loop
(ladon.go:131-141): on no allow it spawns `go Metric.RequestNoMatch`,
synchronously logs rejected, and returns wrapped `ErrRequestDenied`;
otherwise it synchronously logs granted and synchronously calls
`Metric.RequestAllowedBy` (no `go` on ladon.go:139), returning `nil`. -/
def doPoliciesLoop (M : Matcher) (ctx : GoCtx) (r : LRequest) (all : List Policy) :
    List Policy → Bool → List Policy → Option GoError × List Event
  | [], allowed, deciders =>
    if !allowed then
      (some (.withStack .errRequestDenied),
        [⟨.reqNoMatch r, true⟩, ⟨.logRejected r all deciders, false⟩])
    else
      (none, [⟨.logGranted r all deciders, false⟩, ⟨.reqAllowedBy r deciders, false⟩])
  | p :: ps, allowed, deciders =>
    match stepPolicy M ctx r p with
    | (.fatal e, evs) => (some e, evs)
    | (.skip, evs) =>
      let rest := doPoliciesLoop M ctx r all ps allowed deciders
      (rest.1, evs ++ rest.2)
    | (.denyMatch, evs) =>
      (some (.withStack .errRequestForcefullyDenied),
        evs ++ [⟨.logRejected r all (deciders ++ [p]), false⟩, ⟨.reqDeniedBy r p, true⟩])
    | (.allowMatch, evs) =>
      let rest := doPoliciesLoop M ctx r all ps true (deciders ++ [p])
      (rest.1, evs ++ rest.2)

/-- `(l *Ladon) DoPoliciesAllow(ctx, r, policies)` (ladon.go:72-142):
returns the Go error (`none` = `nil` = allowed) and the trace of
collaborator calls.  Starts with `allowed = false` and empty `deciders`. -/
def doPoliciesAllow (M : Matcher) (ctx : GoCtx) (r : LRequest)
    (policies : List Policy) : Option GoError × List Event :=
  doPoliciesLoop M ctx r policies policies false []

/-- `(l *Ladon) IsAllowed(ctx, r)` (ladon.go:55-68): fetch candidates from
the manager; on a lookup error spawn `go Metric.RequestProcessingError`
and return the error unwrapped; otherwise run `DoPoliciesAllow`. -/
def isAllowed (M : Matcher) (mgr : Manager) (ctx : GoCtx) (r : LRequest) :
    Option GoError × List Event :=
  match mgr ctx r with
  | .error e => (some (.external e), [⟨.reqProcessingError r none e, true⟩])
  | .ok policies => doPoliciesAllow M ctx r policies

/-! ## Lazy default wiring (`lazyInit`, ladon.go:38-52)

The collaborator fields of a `Ladon` value: `none` models a Go `nil`
interface; `some .builtin` the package defaults (`DefaultMatcher`,
`DefaultAuditLogger`, `DefaultMetric`); `some (.custom n)` a
caller-supplied implementation. -/

/-- A collaborator reference stored in a `Ladon` field. -/
inductive Collab
  | builtin
  | custom (n : Nat)
  deriving DecidableEq, Repr

/-- The three collaborator fields of `Ladon` (ladon.go:31-36) that
`lazyInit` wires; `none` is a Go `nil` interface value. -/
structure LadonRefs where
  matcher : Option Collab
  auditLogger : Option Collab
  metric : Option Collab
  deriving DecidableEq, Repr

/-- Body of the `lazyInitOnce.Do` closure (ladon.go:41-51): replace each
`nil` collaborator by the built-in default. -/
def lazyInitBody (l : LadonRefs) : LadonRefs :=
  { matcher := if l.matcher = none then some .builtin else l.matcher
    auditLogger := if l.auditLogger = none then some .builtin else l.auditLogger
    metric := if l.metric = none then some .builtin else l.metric }

/-- `(l *Ladon) lazyInit()` (ladon.go:40-52).  The guard
`lazyInitOnce` is a PACKAGE-LEVEL `sync.Once` (ladon.go:38), shared by
every `Ladon` instance in the process: `once` is that global flag
(`true` once the closure has run, for anybody).  `sync.Once.Do` runs the
closure iff the flag is unset, then sets it. -/
def lazyInit (once : Bool) (l : LadonRefs) : Bool × LadonRefs :=
  if once then (once, l) else (true, lazyInitBody l)

/-! ## Helper predicates over traces and results -/

/-- Is this call an AuditLogger invocation? -/
def isAuditCall : Call → Bool
  | .logGranted _ _ _ => true
  | .logRejected _ _ _ => true
  | _ => false

/-- Is this call a Metric invocation? -/
def isMetricCall : Call → Bool
  | .reqProcessingError _ _ _ => true
  | .reqDeniedBy _ _ => true
  | .reqNoMatch _ => true
  | .reqAllowedBy _ _ => true
  | _ => false

/-- Is this call `Metric.RequestAllowedBy`? -/
def isReqAllowedByCall : Call → Bool
  | .reqAllowedBy _ _ => true
  | _ => false

/-- The AuditLogger events of a trace. -/
def auditEvents (t : List Event) : List Event :=
  t.filter (fun ev => isAuditCall ev.call)

/-- The candidate list carried by an audit call. -/
def auditCand : Call → Option (List Policy)
  | .logGranted _ cand _ => some cand
  | .logRejected _ cand _ => some cand
  | _ => none

/-- The deciders list carried by an audit call. -/
def auditDeciders : Call → Option (List Policy)
  | .logGranted _ _ ds => some ds
  | .logRejected _ _ ds => some ds
  | _ => none

/-- The policy a Matcher or Condition probe is evaluated on, if the call
is such a probe. -/
def probeOwner : Call → Option Policy
  | .matcherMatches _ p _ _ => some p
  | .conditionFulfills p _ _ => some p
  | _ => none

/-- Kind of a probe call, used to state the evaluation order. -/
inductive PKind
  | mA
  | mS
  | mR
  | cond
  deriving DecidableEq, Repr

/-- The probe kind of a call, `none` for audit/metric calls. -/
def probeKind : Call → Option PKind
  | .matcherMatches .action _ _ _ => some .mA
  | .matcherMatches .subject _ _ _ => some .mS
  | .matcherMatches .resource _ _ _ => some .mR
  | .conditionFulfills _ _ _ => some .cond
  | _ => none

/-- The probe kinds of a trace, in order. -/
def probeKinds (t : List Event) : List PKind :=
  t.filterMap (fun ev => probeKind ev.call)

/-- The probe (Matcher/Condition) events of a trace. -/
def probeEvents (t : List Event) : List Event :=
  t.filter (fun ev => (probeOwner ev.call).isSome)

/-- Did the evaluation end in an internal (collaborator) error, i.e. a
matcher or manager failure, as opposed to a sentinel outcome? -/
def resIsInternalErr : Option GoError → Bool
  | some (.external _) => true
  | some (.withStack (.external _)) => true
  | _ => false

/-- Did a Matcher call succeed reporting a match? -/
def isOkTrue : Except String Bool → Bool
  | .ok true => true
  | _ => false

/-- A policy fully matches the request: the Matcher reports `true` for
actions, subjects and resources, and every condition passes. -/
def fullyMatchesB (M : Matcher) (ctx : GoCtx) (r : LRequest) (p : Policy) : Bool :=
  isOkTrue (M p p.actions r.action) &&
  isOkTrue (M p p.subjects r.subject) &&
  isOkTrue (M p p.resources r.resource) &&
  passesConditions ctx p r

/-- The Matcher succeeds (no error) on all three dimensions of `p`. -/
def matcherOkOn (M : Matcher) (r : LRequest) (p : Policy) : Bool :=
  (M p p.actions r.action).isOk &&
  (M p p.subjects r.subject).isOk &&
  (M p p.resources r.resource).isOk

/-! ## Concrete fixtures used by counterexamples and witnesses -/

/-- A request for action `"act"` by `"sub"` on `"res"` with context
`{ip ↦ 8.8.8.8}`. -/
def r0 : LRequest :=
  ⟨"res", "act", "sub", fun k => if k = "ip" then some "8.8.8.8" else none⟩

/-- A condition fulfilled iff the context value bound to its key equals
`v`. -/
def condEq (v : String) : Condition :=
  ⟨fun _ ov _ => ov == some v⟩

/-- Allow policy fully matching `r0`. -/
def pAllow : Policy := ⟨["act"], ["sub"], ["res"], [], true⟩

/-- Deny policy fully matching `r0`. -/
def pDeny : Policy := ⟨["act"], ["sub"], ["res"], [], false⟩

/-- Policy whose every pattern set makes `M0` fail. -/
def pBoom : Policy := ⟨["boom"], ["boom"], ["boom"], [], true⟩

/-- Policy whose subject pattern set makes `M0` fail (actions match). -/
def pSubjBoom : Policy := ⟨["act"], ["boom"], ["res"], [], true⟩

/-- Allow policy matching `r0`'s patterns whose condition requires the
`"ip"` context value to be `"internal"` (which `r0` does not satisfy). -/
def pCondFail : Policy := ⟨["act"], ["sub"], ["res"], [("ip", condEq "internal")], true⟩

/-- Allow policy matching `r0` whose condition requires `"ip"` to be
`"8.8.8.8"` (which `r0` satisfies). -/
def pCondOk : Policy := ⟨["act"], ["sub"], ["res"], [("ip", condEq "8.8.8.8")], true⟩

/-- Policy whose action pattern set does not match `r0`. -/
def pNoAct : Policy := ⟨["other"], ["sub"], ["res"], [], true⟩

/-- Allow policy matching `r0` with two conditions (both satisfied by
`r0`'s context on `"ip"` and failing on the absent `"a"` key). -/
def pTwo : Policy :=
  ⟨["act"], ["sub"], ["res"], [("ip", condEq "8.8.8.8"), ("a", condEq "1")], true⟩

/-- `pTwo` with its two conditions listed in the opposite order. -/
def pTwoSwap : Policy :=
  ⟨["act"], ["sub"], ["res"], [("a", condEq "1"), ("ip", condEq "8.8.8.8")], true⟩

/-- Is this call `Metric.RequestNoMatch`? -/
def isNoMatchCall : Call → Bool
  | .reqNoMatch _ => true
  | _ => false

/-- Stub matcher: fails on any pattern set containing `"boom"`, otherwise
reports whether the candidate string occurs in the pattern set. -/
def M0 : Matcher := fun _ pats s =>
  if pats.contains "boom" then .error "boom" else .ok (pats.contains s)

/-- Is this outcome an `errors.WithStack`-wrapped error? -/
def isStackWrapped : Option GoError → Bool
  | some (.withStack _) => true
  | _ => false

/-- Stub policy source returning a fixed candidate list. -/
def mgr0 : Manager := fun _ _ => .ok [pAllow]

/-! ## Basic lemmas about the condition loop and the policy step -/

theorem passesConditionsT_fst (ctx : GoCtx) (p : Policy) (r : LRequest)
    (l : List (String × Condition)) :
    (passesConditionsT ctx p r l).1 = passesConditionsGo ctx r l := by
  induction l with
  | nil => rfl
  | cons kc rest ih =>
    obtain ⟨key, condition⟩ := kc
    simp only [passesConditionsT, passesConditionsGo]
    split <;> simp [ih]

theorem passesConditionsGo_eq_all (ctx : GoCtx) (r : LRequest)
    (l : List (String × Condition)) :
    passesConditionsGo ctx r l =
      l.all (fun kc => kc.2.fulfills ctx (r.context kc.1) r) := by
  induction l with
  | nil => rfl
  | cons kc rest ih =>
    obtain ⟨key, condition⟩ := kc
    simp only [passesConditionsGo, List.all_cons]
    split <;> rename_i h <;> simp [h, ih]

theorem passesConditionsT_kinds (ctx : GoCtx) (p : Policy) (r : LRequest)
    (l : List (String × Condition)) :
    ∃ n, probeKinds (passesConditionsT ctx p r l).2 = List.replicate n .cond := by
  induction l with
  | nil => exact ⟨0, rfl⟩
  | cons kc rest ih =>
    obtain ⟨key, condition⟩ := kc
    simp only [passesConditionsT]
    split
    · obtain ⟨n, hn⟩ := ih
      exact ⟨n + 1, by simp [probeKinds, List.replicate_succ, probeKind] at hn ⊢; exact hn⟩
    · exact ⟨1, by simp [probeKinds, probeKind, List.replicate]⟩

theorem passesConditionsT_owner (ctx : GoCtx) (p : Policy) (r : LRequest)
    (l : List (String × Condition)) :
    ∀ ev ∈ (passesConditionsT ctx p r l).2, probeOwner ev.call = some p := by
  induction l with
  | nil => intro ev h; cases h
  | cons kc rest ih =>
    obtain ⟨key, condition⟩ := kc
    simp only [passesConditionsT]
    split
    · intro ev h
      rcases List.mem_cons.mp h with h | h
      · subst h; rfl
      · exact ih ev h
    · intro ev h
      rcases List.mem_cons.mp h with h | h
      · subst h; rfl
      · cases h

theorem passesConditionsT_no_sink (ctx : GoCtx) (p : Policy) (r : LRequest)
    (l : List (String × Condition)) :
    ∀ ev ∈ (passesConditionsT ctx p r l).2,
      isAuditCall ev.call = false ∧ isMetricCall ev.call = false := by
  induction l with
  | nil => intro ev h; cases h
  | cons kc rest ih =>
    obtain ⟨key, condition⟩ := kc
    simp only [passesConditionsT]
    split
    · intro ev h
      rcases List.mem_cons.mp h with h | h
      · subst h; exact ⟨rfl, rfl⟩
      · exact ih ev h
    · intro ev h
      rcases List.mem_cons.mp h with h | h
      · subst h; exact ⟨rfl, rfl⟩
      · cases h

/-- Complete case analysis of the loop body: the nine possible outcomes of
evaluating one candidate policy, with the exact result and event list of
each. -/
theorem stepPolicy_spec (M : Matcher) (ctx : GoCtx) (r : LRequest) (p : Policy) :
    (∃ e, M p p.actions r.action = .error e ∧
      stepPolicy M ctx r p = (.fatal (.withStack (.external e)),
        [⟨.matcherMatches .action p p.actions r.action, false⟩,
         ⟨.reqProcessingError r (some p) e, true⟩])) ∨
    (M p p.actions r.action = .ok false ∧
      stepPolicy M ctx r p = (.skip,
        [⟨.matcherMatches .action p p.actions r.action, false⟩])) ∨
    (M p p.actions r.action = .ok true ∧
      ((∃ e, M p p.subjects r.subject = .error e ∧
        stepPolicy M ctx r p = (.fatal (.external e),
          [⟨.matcherMatches .action p p.actions r.action, false⟩,
           ⟨.matcherMatches .subject p p.subjects r.subject, false⟩,
           ⟨.reqProcessingError r (some p) e, true⟩])) ∨
      (M p p.subjects r.subject = .ok false ∧
        stepPolicy M ctx r p = (.skip,
          [⟨.matcherMatches .action p p.actions r.action, false⟩,
           ⟨.matcherMatches .subject p p.subjects r.subject, false⟩])) ∨
      (M p p.subjects r.subject = .ok true ∧
        ((∃ e, M p p.resources r.resource = .error e ∧
          stepPolicy M ctx r p = (.fatal (.withStack (.external e)),
            [⟨.matcherMatches .action p p.actions r.action, false⟩,
             ⟨.matcherMatches .subject p p.subjects r.subject, false⟩,
             ⟨.matcherMatches .resource p p.resources r.resource, false⟩,
             ⟨.reqProcessingError r (some p) e, true⟩])) ∨
        (M p p.resources r.resource = .ok false ∧
          stepPolicy M ctx r p = (.skip,
            [⟨.matcherMatches .action p p.actions r.action, false⟩,
             ⟨.matcherMatches .subject p p.subjects r.subject, false⟩,
             ⟨.matcherMatches .resource p p.resources r.resource, false⟩])) ∨
        (M p p.resources r.resource = .ok true ∧
          ((passesConditions ctx p r = false ∧
            stepPolicy M ctx r p = (.skip,
              ⟨.matcherMatches .action p p.actions r.action, false⟩ ::
              ⟨.matcherMatches .subject p p.subjects r.subject, false⟩ ::
              ⟨.matcherMatches .resource p p.resources r.resource, false⟩ ::
              (passesConditionsT ctx p r p.conditions).2)) ∨
          (passesConditions ctx p r = true ∧ p.allowAccess = false ∧
            stepPolicy M ctx r p = (.denyMatch,
              ⟨.matcherMatches .action p p.actions r.action, false⟩ ::
              ⟨.matcherMatches .subject p p.subjects r.subject, false⟩ ::
              ⟨.matcherMatches .resource p p.resources r.resource, false⟩ ::
              (passesConditionsT ctx p r p.conditions).2)) ∨
          (passesConditions ctx p r = true ∧ p.allowAccess = true ∧
            stepPolicy M ctx r p = (.allowMatch,
              ⟨.matcherMatches .action p p.actions r.action, false⟩ ::
              ⟨.matcherMatches .subject p p.subjects r.subject, false⟩ ::
              ⟨.matcherMatches .resource p p.resources r.resource, false⟩ ::
              (passesConditionsT ctx p r p.conditions).2)))))))) := by
  have hpc := passesConditionsT_fst ctx p r p.conditions
  rcases hA : M p p.actions r.action with eA | pm
  · exact Or.inl ⟨eA, rfl, by unfold stepPolicy; rw [hA]; try rfl⟩
  · cases pm
    · exact Or.inr (Or.inl ⟨rfl, by unfold stepPolicy; rw [hA]; try rfl⟩)
    · refine Or.inr (Or.inr ⟨rfl, ?_⟩)
      rcases hS : M p p.subjects r.subject with eS | sm
      · exact Or.inl ⟨eS, rfl, by unfold stepPolicy; rw [hA, hS]; try rfl⟩
      · cases sm
        · exact Or.inr (Or.inl ⟨rfl, by unfold stepPolicy; rw [hA, hS]; try rfl⟩)
        · refine Or.inr (Or.inr ⟨rfl, ?_⟩)
          rcases hR : M p p.resources r.resource with eR | rm
          · exact Or.inl ⟨eR, rfl, by unfold stepPolicy; rw [hA, hR, hS]; try rfl⟩
          · cases rm
            · exact Or.inr (Or.inl ⟨rfl, by unfold stepPolicy; rw [hA, hS, hR]; try rfl⟩)
            · refine Or.inr (Or.inr ⟨rfl, ?_⟩)
              rcases hc : passesConditions ctx p r with _ | _
              · refine Or.inl ⟨rfl, ?_⟩
                unfold stepPolicy
                rw [hA, hS, hR]
                simp only [passesConditions] at hc
                simp [hpc, hc]
              · rcases ha : p.allowAccess with _ | _
                · refine Or.inr (Or.inl ⟨rfl, rfl, ?_⟩)
                  unfold stepPolicy
                  rw [hA, hS, hR]
                  simp only [passesConditions] at hc
                  simp [hpc, hc, ha]
                · refine Or.inr (Or.inr ⟨rfl, rfl, ?_⟩)
                  unfold stepPolicy
                  rw [hA, hS, hR]
                  simp only [passesConditions] at hc
                  simp [hpc, hc, ha]

theorem isOkTrue_iff (x : Except String Bool) : isOkTrue x = true ↔ x = .ok true := by
  cases x with
  | error e => simp [isOkTrue]
  | ok b => cases b <;> simp [isOkTrue]

/-- Every event emitted by the loop body is a Matcher probe on the policy
under evaluation, a `RequestProcessingError` metric spawn for it, or one of
its condition probes. -/
theorem stepPolicy_events_mem (M : Matcher) (ctx : GoCtx) (r : LRequest) (p : Policy) :
    ∀ ev ∈ (stepPolicy M ctx r p).2,
      (∃ d pats s, ev = ⟨.matcherMatches d p pats s, false⟩) ∨
      (∃ e, ev = ⟨.reqProcessingError r (some p) e, true⟩) ∨
      ev ∈ (passesConditionsT ctx p r p.conditions).2 := by
  rcases stepPolicy_spec M ctx r p with ⟨e, hM, h⟩ | ⟨hM, h⟩ |
    ⟨hA, ⟨e, hM, h⟩ | ⟨hM, h⟩ | ⟨hS, ⟨e, hM, h⟩ | ⟨hM, h⟩ |
      ⟨hR, ⟨hc, h⟩ | ⟨hc, ha, h⟩ | ⟨hc, ha, h⟩⟩⟩⟩ <;>
    rw [h] <;> intro ev hev <;>
    simp only [List.mem_cons, List.not_mem_nil, or_false] at hev
  · rcases hev with hev | hev <;> subst hev
    · exact Or.inl ⟨_, _, _, rfl⟩
    · exact Or.inr (Or.inl ⟨_, rfl⟩)
  · subst hev; exact Or.inl ⟨_, _, _, rfl⟩
  · rcases hev with hev | hev | hev <;> subst hev
    · exact Or.inl ⟨_, _, _, rfl⟩
    · exact Or.inl ⟨_, _, _, rfl⟩
    · exact Or.inr (Or.inl ⟨_, rfl⟩)
  · rcases hev with hev | hev <;> subst hev <;> exact Or.inl ⟨_, _, _, rfl⟩
  · rcases hev with hev | hev | hev | hev <;> subst hev
    · exact Or.inl ⟨_, _, _, rfl⟩
    · exact Or.inl ⟨_, _, _, rfl⟩
    · exact Or.inl ⟨_, _, _, rfl⟩
    · exact Or.inr (Or.inl ⟨_, rfl⟩)
  · rcases hev with hev | hev | hev <;> subst hev <;> exact Or.inl ⟨_, _, _, rfl⟩
  · rcases hev with hev | hev | hev | hev
    · subst hev; exact Or.inl ⟨_, _, _, rfl⟩
    · subst hev; exact Or.inl ⟨_, _, _, rfl⟩
    · subst hev; exact Or.inl ⟨_, _, _, rfl⟩
    · exact Or.inr (Or.inr hev)
  · rcases hev with hev | hev | hev | hev
    · subst hev; exact Or.inl ⟨_, _, _, rfl⟩
    · subst hev; exact Or.inl ⟨_, _, _, rfl⟩
    · subst hev; exact Or.inl ⟨_, _, _, rfl⟩
    · exact Or.inr (Or.inr hev)
  · rcases hev with hev | hev | hev | hev
    · subst hev; exact Or.inl ⟨_, _, _, rfl⟩
    · subst hev; exact Or.inl ⟨_, _, _, rfl⟩
    · subst hev; exact Or.inl ⟨_, _, _, rfl⟩
    · exact Or.inr (Or.inr hev)

/-- A fatal step result is always a (possibly stack-wrapped) collaborator
error — never one of the sentinel errors. -/
theorem stepPolicy_fatal_internal (M : Matcher) (ctx : GoCtx) (r : LRequest)
    (p : Policy) (e : GoError) (h : (stepPolicy M ctx r p).1 = .fatal e) :
    resIsInternalErr (some e) = true := by
  rcases stepPolicy_spec M ctx r p with ⟨e', hM, hs⟩ | ⟨hM, hs⟩ |
    ⟨hA, ⟨e', hM, hs⟩ | ⟨hM, hs⟩ | ⟨hS, ⟨e', hM, hs⟩ | ⟨hM, hs⟩ |
      ⟨hR, ⟨hc, hs⟩ | ⟨hc, ha, hs⟩ | ⟨hc, ha, hs⟩⟩⟩⟩ <;>
    rw [hs] at h <;> simp only [] at h <;> first
    | (cases h; rfl)
    | cases h

/-- `isOk = true` means the matcher returned a boolean. -/
theorem isOk_exists (x : Except String Bool) : x.isOk = true ↔ ∃ b, x = .ok b := by
  cases x <;> simp [Except.isOk, Except.toBool]

/-- If the Matcher succeeds on all three dimensions of a policy, its step
never aborts. -/
theorem stepPolicy_ok_not_fatal (M : Matcher) (ctx : GoCtx) (r : LRequest)
    (p : Policy) (hok : matcherOkOn M r p = true) (e : GoError) :
    (stepPolicy M ctx r p).1 ≠ .fatal e := by
  simp only [matcherOkOn, Bool.and_eq_true, isOk_exists] at hok
  obtain ⟨⟨⟨bA, hA⟩, bS, hS⟩, bR, hR⟩ := hok
  rcases stepPolicy_spec M ctx r p with ⟨e', hM, hs⟩ | ⟨hM, hs⟩ |
    ⟨hA', ⟨e', hM, hs⟩ | ⟨hM, hs⟩ | ⟨hS', ⟨e', hM, hs⟩ | ⟨hM, hs⟩ |
      ⟨hR', ⟨hc', hs⟩ | ⟨hc', ha, hs⟩ | ⟨hc', ha, hs⟩⟩⟩⟩
  · rw [hA] at hM; exact absurd hM (by simp)
  · rw [hs]; simp
  · rw [hS] at hM; exact absurd hM (by simp)
  · rw [hs]; simp
  · rw [hR] at hM; exact absurd hM (by simp)
  · rw [hs]; simp
  · rw [hs]; simp
  · rw [hs]; simp
  · rw [hs]; simp

/-- A fully matching policy steps to its effect: deny or allow
(ladon.go:119-128). -/
theorem stepPolicy_of_fullyMatches (M : Matcher) (ctx : GoCtx) (r : LRequest)
    (p : Policy) (hfm : fullyMatchesB M ctx r p = true) :
    (stepPolicy M ctx r p).1 = if p.allowAccess then .allowMatch else .denyMatch := by
  simp only [fullyMatchesB, Bool.and_eq_true, isOkTrue_iff] at hfm
  obtain ⟨⟨⟨hA, hS⟩, hR⟩, hc⟩ := hfm
  rcases stepPolicy_spec M ctx r p with ⟨e', hM, hs⟩ | ⟨hM, hs⟩ |
    ⟨hA', ⟨e', hM, hs⟩ | ⟨hM, hs⟩ | ⟨hS', ⟨e', hM, hs⟩ | ⟨hM, hs⟩ |
      ⟨hR', ⟨hc', hs⟩ | ⟨hc', ha, hs⟩ | ⟨hc', ha, hs⟩⟩⟩⟩
  · rw [hA] at hM; exact absurd hM (by simp)
  · rw [hA] at hM; exact absurd hM (by simp)
  · rw [hS] at hM; exact absurd hM (by simp)
  · rw [hS] at hM; exact absurd hM (by simp)
  · rw [hR] at hM; exact absurd hM (by simp)
  · rw [hR] at hM; exact absurd hM (by simp)
  · rw [hc] at hc'; exact absurd hc' (by simp)
  · rw [hs, ha]; rfl
  · rw [hs, ha]; rfl

/-- An aborting step spawned `go Metric.RequestProcessingError` for the
offending policy. -/
theorem stepPolicy_fatal_has_pe (M : Matcher) (ctx : GoCtx) (r : LRequest)
    (p : Policy) (e : GoError) (h : (stepPolicy M ctx r p).1 = .fatal e) :
    ∃ err, (⟨.reqProcessingError r (some p) err, true⟩ : Event) ∈ (stepPolicy M ctx r p).2 := by
  rcases stepPolicy_spec M ctx r p with ⟨e', hM, hs⟩ | ⟨hM, hs⟩ |
    ⟨hA', ⟨e', hM, hs⟩ | ⟨hM, hs⟩ | ⟨hS', ⟨e', hM, hs⟩ | ⟨hM, hs⟩ |
      ⟨hR', ⟨hc', hs⟩ | ⟨hc', ha, hs⟩ | ⟨hc', ha, hs⟩⟩⟩⟩ <;>
    rw [hs] at h ⊢ <;> first
    | exact ⟨e', by simp⟩
    | cases h

/-- If all three dimension matches of a policy succeed with `true`, the
step outcome is decided exactly by the conditions and then the effect
(ladon.go:114-128): conditions failing skip the policy with no error,
conditions passing reach the effect check. -/
theorem stepPolicy_conditions_decide (M : Matcher) (ctx : GoCtx) (r : LRequest)
    (p : Policy) (hA : M p p.actions r.action = .ok true)
    (hS : M p p.subjects r.subject = .ok true)
    (hR : M p p.resources r.resource = .ok true) :
    (stepPolicy M ctx r p).1 =
      if passesConditions ctx p r then
        (if p.allowAccess then .allowMatch else .denyMatch)
      else .skip := by
  rcases stepPolicy_spec M ctx r p with ⟨e', hM, hs⟩ | ⟨hM, hs⟩ |
    ⟨hA', ⟨e', hM, hs⟩ | ⟨hM, hs⟩ | ⟨hS', ⟨e', hM, hs⟩ | ⟨hM, hs⟩ |
      ⟨hR', ⟨hc', hs⟩ | ⟨hc', ha, hs⟩ | ⟨hc', ha, hs⟩⟩⟩⟩ <;>
    first
    | (rw [hM] at hA; cases hA)
    | (rw [hM] at hS; cases hS)
    | (rw [hM] at hR; cases hR)
    | (rw [hs, hc']; rfl)
    | (rw [hs, hc', ha]; rfl)

/-- A non-matching dimension skips the policy (ladon.go:87-89, 98-100,
107-109): when the first probe reporting `false` is reached, the step is a
skip, not an error. -/
theorem stepPolicy_dim_false_skip (M : Matcher) (ctx : GoCtx) (r : LRequest)
    (p : Policy) :
    (M p p.actions r.action = .ok false → (stepPolicy M ctx r p).1 = .skip) ∧
    (M p p.actions r.action = .ok true → M p p.subjects r.subject = .ok false →
      (stepPolicy M ctx r p).1 = .skip) ∧
    (M p p.actions r.action = .ok true → M p p.subjects r.subject = .ok true →
      M p p.resources r.resource = .ok false → (stepPolicy M ctx r p).1 = .skip) := by
  refine ⟨?_, ?_, ?_⟩
  · intro h1
    rcases stepPolicy_spec M ctx r p with ⟨e', hM, hs⟩ | ⟨hM, hs⟩ |
      ⟨hA', ⟨e', hM, hs⟩ | ⟨hM, hs⟩ | ⟨hS', ⟨e', hM, hs⟩ | ⟨hM, hs⟩ |
        ⟨hR', ⟨hc', hs⟩ | ⟨hc', ha, hs⟩ | ⟨hc', ha, hs⟩⟩⟩⟩
    · rw [h1] at hM; exact absurd hM (by simp)
    · rw [hs]
    · rw [h1] at hA'; exact absurd hA' (by simp)
    · rw [h1] at hA'; exact absurd hA' (by simp)
    · rw [h1] at hA'; exact absurd hA' (by simp)
    · rw [h1] at hA'; exact absurd hA' (by simp)
    · rw [h1] at hA'; exact absurd hA' (by simp)
    · rw [h1] at hA'; exact absurd hA' (by simp)
    · rw [h1] at hA'; exact absurd hA' (by simp)
  · intro h1 h2
    rcases stepPolicy_spec M ctx r p with ⟨e', hM, hs⟩ | ⟨hM, hs⟩ |
      ⟨hA', ⟨e', hM, hs⟩ | ⟨hM, hs⟩ | ⟨hS', ⟨e', hM, hs⟩ | ⟨hM, hs⟩ |
        ⟨hR', ⟨hc', hs⟩ | ⟨hc', ha, hs⟩ | ⟨hc', ha, hs⟩⟩⟩⟩
    · rw [h1] at hM; exact absurd hM (by simp)
    · rw [h1] at hM; exact absurd hM (by simp)
    · rw [h2] at hM; exact absurd hM (by simp)
    · rw [hs]
    · rw [h2] at hS'; exact absurd hS' (by simp)
    · rw [hs]
    · rw [hs]
    · rw [h2] at hS'; exact absurd hS' (by simp)
    · rw [h2] at hS'; exact absurd hS' (by simp)
  · intro h1 h2 h3
    rcases stepPolicy_spec M ctx r p with ⟨e', hM, hs⟩ | ⟨hM, hs⟩ |
      ⟨hA', ⟨e', hM, hs⟩ | ⟨hM, hs⟩ | ⟨hS', ⟨e', hM, hs⟩ | ⟨hM, hs⟩ |
        ⟨hR', ⟨hc', hs⟩ | ⟨hc', ha, hs⟩ | ⟨hc', ha, hs⟩⟩⟩⟩
    · rw [h1] at hM; exact absurd hM (by simp)
    · rw [h1] at hM; exact absurd hM (by simp)
    · rw [h2] at hM; exact absurd hM (by simp)
    · rw [hs]
    · rw [h3] at hM; exact absurd hM (by simp)
    · rw [hs]
    · rw [hs]
    · rw [h3] at hR'; exact absurd hR' (by simp)
    · rw [h3] at hR'; exact absurd hR' (by simp)

/-- The loop body never calls the audit logger (audit calls happen only at
terminal outcomes of the enclosing loop). -/
theorem stepPolicy_no_audit (M : Matcher) (ctx : GoCtx) (r : LRequest) (p : Policy) :
    ∀ ev ∈ (stepPolicy M ctx r p).2, isAuditCall ev.call = false := by
  intro ev hev
  rcases stepPolicy_events_mem M ctx r p ev hev with ⟨d, pats, s, h⟩ | ⟨e, h⟩ | h
  · subst h; rfl
  · subst h; rfl
  · exact (passesConditionsT_no_sink ctx p r p.conditions ev h).1

/-- Every Metric call made by the loop body is an async
`RequestProcessingError` spawn (in particular never `RequestAllowedBy`). -/
theorem stepPolicy_metric_async (M : Matcher) (ctx : GoCtx) (r : LRequest) (p : Policy) :
    ∀ ev ∈ (stepPolicy M ctx r p).2, isMetricCall ev.call = true →
      ev.async = true ∧ isReqAllowedByCall ev.call = false := by
  intro ev hev hm
  rcases stepPolicy_events_mem M ctx r p ev hev with ⟨d, pats, s, h⟩ | ⟨e, h⟩ | h
  · subst h; cases hm
  · subst h; exact ⟨rfl, rfl⟩
  · rw [(passesConditionsT_no_sink ctx p r p.conditions ev h).2] at hm; cases hm

/-- Audit behaviour of the candidate loop: exactly one audit call on every
terminal outcome that is not a matcher abort, zero on a matcher abort, and
every audit call carries the full candidate list `all`. -/
theorem doPoliciesLoop_audit (M : Matcher) (ctx : GoCtx) (r : LRequest)
    (all : List Policy) :
    ∀ ps allowed ds,
      (auditEvents (doPoliciesLoop M ctx r all ps allowed ds).2).length
        = (if resIsInternalErr (doPoliciesLoop M ctx r all ps allowed ds).1 then 0 else 1) ∧
      ∀ ev ∈ auditEvents (doPoliciesLoop M ctx r all ps allowed ds).2,
        auditCand ev.call = some all := by
  intro ps
  induction ps with
  | nil =>
    intro allowed ds
    cases allowed <;> simp [doPoliciesLoop, auditEvents, resIsInternalErr,
      isAuditCall, List.filter, auditCand]
  | cons q ps ih =>
    intro allowed ds
    have hstep := stepPolicy_no_audit M ctx r q
    rcases hsq : stepPolicy M ctx r q with ⟨sr, evs⟩
    rw [hsq] at hstep
    have hevs : auditEvents evs = [] := by
      rw [auditEvents, List.filter_eq_nil_iff]
      intro ev hev
      simp [hstep ev hev]
    cases sr with
    | fatal e =>
      have hint : resIsInternalErr (some e) = true :=
        stepPolicy_fatal_internal M ctx r q e (by rw [hsq])
      simp only [doPoliciesLoop, hsq]
      rw [hevs] at *
      simp [hint, hevs]
    | skip =>
      simp only [doPoliciesLoop, hsq]
      rw [auditEvents, List.filter_append, ← auditEvents, ← auditEvents, hevs,
        List.nil_append]
      exact ih allowed ds
    | denyMatch =>
      simp only [doPoliciesLoop, hsq]
      rw [auditEvents, List.filter_append, ← auditEvents, ← auditEvents, hevs,
        List.nil_append]
      refine ⟨?_, ?_⟩
      · simp [auditEvents, List.filter, isAuditCall, resIsInternalErr]
      · intro ev hev
        simp only [auditEvents, List.filter, isAuditCall] at hev
        simp only [List.mem_cons, List.not_mem_nil, or_false] at hev
        subst hev; rfl
    | allowMatch =>
      simp only [doPoliciesLoop, hsq]
      rw [auditEvents, List.filter_append, ← auditEvents, ← auditEvents, hevs,
        List.nil_append]
      exact ih true (ds ++ [q])

/-- If some policy in the remaining list fully matches with deny effect,
the loop never returns `nil`. -/
theorem doPoliciesLoop_ne_none_of_deny (M : Matcher) (ctx : GoCtx) (r : LRequest)
    (all : List Policy) :
    ∀ ps allowed ds, (∃ p ∈ ps, fullyMatchesB M ctx r p = true ∧ p.allowAccess = false) →
      (doPoliciesLoop M ctx r all ps allowed ds).1 ≠ none := by
  intro ps
  induction ps with
  | nil =>
    intro allowed ds ⟨p, hp, _⟩
    cases hp
  | cons q ps ih =>
    intro allowed ds ⟨p, hp, hfm, hdeny⟩
    rcases hsq : stepPolicy M ctx r q with ⟨sr, evs⟩
    cases sr with
    | fatal e => simp [doPoliciesLoop, hsq]
    | denyMatch => simp [doPoliciesLoop, hsq]
    | skip =>
      rcases List.mem_cons.mp hp with hp | hp
      · subst hp
        have := stepPolicy_of_fullyMatches M ctx r p hfm
        rw [hsq, hdeny] at this
        cases this
      · simp only [doPoliciesLoop, hsq]
        exact ih allowed ds ⟨p, hp, hfm, hdeny⟩
    | allowMatch =>
      rcases List.mem_cons.mp hp with hp | hp
      · subst hp
        have := stepPolicy_of_fullyMatches M ctx r p hfm
        rw [hsq, hdeny] at this
        cases this
      · simp only [doPoliciesLoop, hsq]
        exact ih true (ds ++ [q]) ⟨p, hp, hfm, hdeny⟩

/-- If additionally the Matcher never fails on any policy of the remaining
list, the loop returns exactly the stack-wrapped `ErrRequestForcefullyDenied`. -/
theorem doPoliciesLoop_denied_of_deny (M : Matcher) (ctx : GoCtx) (r : LRequest)
    (all : List Policy) :
    ∀ ps allowed ds,
      (∃ p ∈ ps, fullyMatchesB M ctx r p = true ∧ p.allowAccess = false) →
      (∀ q ∈ ps, matcherOkOn M r q = true) →
      (doPoliciesLoop M ctx r all ps allowed ds).1 =
        some (.withStack .errRequestForcefullyDenied) := by
  intro ps
  induction ps with
  | nil =>
    intro allowed ds ⟨p, hp, _⟩ _
    cases hp
  | cons q ps ih =>
    intro allowed ds ⟨p, hp, hfm, hdeny⟩ hok
    rcases hsq : stepPolicy M ctx r q with ⟨sr, evs⟩
    cases sr with
    | fatal e =>
      have := stepPolicy_ok_not_fatal M ctx r q (hok q (List.mem_cons_self q ps)) e
      rw [hsq] at this
      exact absurd rfl this
    | denyMatch => simp [doPoliciesLoop, hsq]
    | skip =>
      rcases List.mem_cons.mp hp with hp | hp
      · subst hp
        have := stepPolicy_of_fullyMatches M ctx r p hfm
        rw [hsq, hdeny] at this
        cases this
      · simp only [doPoliciesLoop, hsq]
        exact ih allowed ds ⟨p, hp, hfm, hdeny⟩
          (fun q' hq' => hok q' (List.mem_cons_of_mem q hq'))
    | allowMatch =>
      rcases List.mem_cons.mp hp with hp | hp
      · subst hp
        have := stepPolicy_of_fullyMatches M ctx r p hfm
        rw [hsq, hdeny] at this
        cases this
      · simp only [doPoliciesLoop, hsq]
        exact ih true (ds ++ [q]) ⟨p, hp, hfm, hdeny⟩
          (fun q' hq' => hok q' (List.mem_cons_of_mem q hq'))

/-- If every remaining policy is skipped and no allow was recorded, the
loop returns the stack-wrapped `ErrRequestDenied`, spawns
`go Metric.RequestNoMatch`, and synchronously logs the rejected outcome
with the unchanged deciders (ladon.go:131-136). -/
theorem doPoliciesLoop_all_skip (M : Matcher) (ctx : GoCtx) (r : LRequest)
    (all : List Policy) :
    ∀ ps ds, (∀ p ∈ ps, (stepPolicy M ctx r p).1 = .skip) →
      (doPoliciesLoop M ctx r all ps false ds).1 =
        some (.withStack .errRequestDenied) ∧
      (⟨.reqNoMatch r, true⟩ : Event) ∈ (doPoliciesLoop M ctx r all ps false ds).2 ∧
      (⟨.logRejected r all ds, false⟩ : Event) ∈ (doPoliciesLoop M ctx r all ps false ds).2 := by
  intro ps
  induction ps with
  | nil =>
    intro ds _
    simp [doPoliciesLoop]
  | cons q ps ih =>
    intro ds hskip
    have hq := hskip q (List.mem_cons_self q ps)
    rcases hsq : stepPolicy M ctx r q with ⟨sr, evs⟩
    rw [hsq] at hq
    cases hq
    simp only [doPoliciesLoop, hsq]
    obtain ⟨h1, h2, h3⟩ := ih ds (fun p hp => hskip p (List.mem_cons_of_mem q hp))
    exact ⟨h1, List.mem_append_of_mem_right evs h2, List.mem_append_of_mem_right evs h3⟩

/-- Whenever the loop ends in `ErrRequestDenied`, every audit call in its
trace is a rejected-log with an empty deciders list (given the invariant
that no allow has been recorded while `deciders` is empty). -/
theorem doPoliciesLoop_requestDenied_deciders (M : Matcher) (ctx : GoCtx)
    (r : LRequest) (all : List Policy) :
    ∀ ps allowed ds, (allowed = false → ds = []) →
      (doPoliciesLoop M ctx r all ps allowed ds).1 =
        some (.withStack .errRequestDenied) →
      ∀ ev ∈ (doPoliciesLoop M ctx r all ps allowed ds).2,
        isAuditCall ev.call = true → ev = ⟨.logRejected r all [], false⟩ := by
  intro ps
  induction ps with
  | nil =>
    intro allowed ds hinv hres ev hev ha
    cases allowed
    · rw [hinv rfl] at hev
      simp only [doPoliciesLoop] at hev
      simp at hev
      rcases hev with hev | hev
      · subst hev; cases ha
      · subst hev; rfl
    · simp only [doPoliciesLoop] at hres
      simp at hres
  | cons q ps ih =>
    intro allowed ds hinv hres ev hev ha
    rcases hsq : stepPolicy M ctx r q with ⟨sr, evs⟩
    have hnoaudit := stepPolicy_no_audit M ctx r q
    rw [hsq] at hnoaudit
    cases sr with
    | fatal e =>
      have hint : resIsInternalErr (some e) = true :=
        stepPolicy_fatal_internal M ctx r q e (by rw [hsq])
      simp only [doPoliciesLoop, hsq] at hres
      cases hres
      cases hint
    | denyMatch =>
      simp only [doPoliciesLoop, hsq] at hres
      cases hres
    | skip =>
      simp only [doPoliciesLoop, hsq] at hres hev
      rcases List.mem_append.mp hev with hev | hev
      · rw [hnoaudit ev hev] at ha; cases ha
      · exact ih allowed ds hinv hres ev hev ha
    | allowMatch =>
      simp only [doPoliciesLoop, hsq] at hres hev
      rcases List.mem_append.mp hev with hev | hev
      · rw [hnoaudit ev hev] at ha; cases ha
      · exact ih true (ds ++ [q]) (fun h => by cases h) hres ev hev ha

/-- Every Metric call in the loop's trace is an async goroutine spawn,
except `RequestAllowedBy`, which is synchronous (ladon.go:139 has no
`go`). -/
theorem doPoliciesLoop_metric_async (M : Matcher) (ctx : GoCtx) (r : LRequest)
    (all : List Policy) :
    ∀ ps allowed ds, ∀ ev ∈ (doPoliciesLoop M ctx r all ps allowed ds).2,
      isMetricCall ev.call = true →
        ev.async = !(isReqAllowedByCall ev.call) := by
  intro ps
  induction ps with
  | nil =>
    intro allowed ds ev hev hm
    cases allowed
    · simp only [doPoliciesLoop] at hev
      simp at hev
      rcases hev with hev | hev
      · subst hev; rfl
      · subst hev; cases hm
    · simp only [doPoliciesLoop] at hev
      simp at hev
      rcases hev with hev | hev
      · subst hev; cases hm
      · subst hev; rfl
  | cons q ps ih =>
    intro allowed ds ev hev hm
    rcases hsq : stepPolicy M ctx r q with ⟨sr, evs⟩
    have hma := stepPolicy_metric_async M ctx r q
    rw [hsq] at hma
    cases sr with
    | fatal e =>
      simp only [doPoliciesLoop, hsq] at hev
      rw [(hma ev hev hm).2, (hma ev hev hm).1]
      rfl
    | denyMatch =>
      simp only [doPoliciesLoop, hsq] at hev
      rcases List.mem_append.mp hev with hev | hev
      · rw [(hma ev hev hm).2, (hma ev hev hm).1]
        rfl
      · simp only [List.mem_cons, List.not_mem_nil, or_false] at hev
        rcases hev with hev | hev
        · subst hev; cases hm
        · subst hev; rfl
    | skip =>
      simp only [doPoliciesLoop, hsq] at hev
      rcases List.mem_append.mp hev with hev | hev
      · rw [(hma ev hev hm).2, (hma ev hev hm).1]
        rfl
      · exact ih allowed ds ev hev hm
    | allowMatch =>
      simp only [doPoliciesLoop, hsq] at hev
      rcases List.mem_append.mp hev with hev | hev
      · rw [(hma ev hev hm).2, (hma ev hev hm).1]
        rfl
      · exact ih true (ds ++ [q]) ev hev hm

/-- Every probe event of the loop body belongs to the policy being
evaluated (Metric spawns carry no probe owner). -/
theorem stepPolicy_owner (M : Matcher) (ctx : GoCtx) (r : LRequest) (p : Policy) :
    ∀ ev ∈ (stepPolicy M ctx r p).2,
      probeOwner ev.call = some p ∨ probeOwner ev.call = none := by
  intro ev hev
  rcases stepPolicy_events_mem M ctx r p ev hev with ⟨d, pats, s, h⟩ | ⟨e, h⟩ | h
  · subst h; exact Or.inl rfl
  · subst h; exact Or.inr rfl
  · exact Or.inl (passesConditionsT_owner ctx p r p.conditions ev h)

/-- Processing a prefix of non-terminal (skipped or allow-matching)
policies only prepends that prefix's own events: the loop continues on the
remaining candidates with updated accumulators. -/
theorem doPoliciesLoop_prefix (M : Matcher) (ctx : GoCtx) (r : LRequest)
    (all : List Policy) :
    ∀ pre,
      (∀ q ∈ pre, (stepPolicy M ctx r q).1 = .skip ∨ (stepPolicy M ctx r q).1 = .allowMatch) →
      ∀ rest allowed ds, ∃ allowed' ds',
        doPoliciesLoop M ctx r all (pre ++ rest) allowed ds =
          ((doPoliciesLoop M ctx r all rest allowed' ds').1,
            pre.flatMap (fun q => (stepPolicy M ctx r q).2) ++
              (doPoliciesLoop M ctx r all rest allowed' ds').2) := by
  intro pre
  induction pre with
  | nil =>
    intro _ rest allowed ds
    exact ⟨allowed, ds, by simp⟩
  | cons q pre ih =>
    intro hnt rest allowed ds
    rcases hsq : stepPolicy M ctx r q with ⟨sr, evs⟩
    have hq := hnt q (List.mem_cons_self q pre)
    rw [hsq] at hq
    cases sr with
    | fatal e => rcases hq with hq | hq <;> cases hq
    | denyMatch => rcases hq with hq | hq <;> cases hq
    | skip =>
      obtain ⟨a', d', h⟩ :=
        ih (fun q' h' => hnt q' (List.mem_cons_of_mem q h')) rest allowed ds
      refine ⟨a', d', ?_⟩
      rw [List.cons_append]
      simp only [doPoliciesLoop, hsq, h, List.flatMap_cons, List.append_assoc]
    | allowMatch =>
      obtain ⟨a', d', h⟩ :=
        ih (fun q' h' => hnt q' (List.mem_cons_of_mem q h')) rest true (ds ++ [q])
      refine ⟨a', d', ?_⟩
      rw [List.cons_append]
      simp only [doPoliciesLoop, hsq, h, List.flatMap_cons, List.append_assoc]

/-- The probe events of a full run are exactly the concatenated probe
events of the prefix of candidates actually processed, in input order. -/
theorem doPoliciesLoop_probes (M : Matcher) (ctx : GoCtx) (r : LRequest)
    (all : List Policy) :
    ∀ ps allowed ds, ∃ k, k ≤ ps.length ∧
      probeEvents (doPoliciesLoop M ctx r all ps allowed ds).2 =
        (ps.take k).flatMap (fun q => probeEvents (stepPolicy M ctx r q).2) := by
  intro ps
  induction ps with
  | nil =>
    intro allowed ds
    refine ⟨0, Nat.le_refl 0, ?_⟩
    cases allowed <;> simp [doPoliciesLoop, probeEvents, probeOwner, List.filter]
  | cons q ps ih =>
    intro allowed ds
    rcases hsq : stepPolicy M ctx r q with ⟨sr, evs⟩
    cases sr with
    | fatal e =>
      refine ⟨1, Nat.succ_le_succ (Nat.zero_le _), ?_⟩
      simp only [doPoliciesLoop, hsq, List.take_succ_cons, List.take_zero,
        List.flatMap_cons, List.flatMap_nil, List.append_nil, hsq]
    | denyMatch =>
      refine ⟨1, Nat.succ_le_succ (Nat.zero_le _), ?_⟩
      simp only [doPoliciesLoop, hsq, List.take_succ_cons, List.take_zero,
        List.flatMap_cons, List.flatMap_nil, List.append_nil]
      rw [probeEvents, List.filter_append, ← probeEvents, ← probeEvents]
      simp [probeEvents, probeOwner, List.filter]
    | skip =>
      obtain ⟨k, hk, h⟩ := ih allowed ds
      refine ⟨k + 1, Nat.succ_le_succ hk, ?_⟩
      simp only [doPoliciesLoop, hsq, List.take_succ_cons, List.flatMap_cons]
      rw [probeEvents, List.filter_append, ← probeEvents, ← probeEvents, h]
    | allowMatch =>
      obtain ⟨k, hk, h⟩ := ih true (ds ++ [q])
      refine ⟨k + 1, Nat.succ_le_succ hk, ?_⟩
      simp only [doPoliciesLoop, hsq, List.take_succ_cons, List.flatMap_cons]
      rw [probeEvents, List.filter_append, ← probeEvents, ← probeEvents, h]

/-- Shape of the error produced by each dimension's Matcher failure:
action and resource errors are wrapped with `errors.WithStack`
(ladon.go:86, 106); a subject error is returned bare (ladon.go:97). -/
theorem stepPolicy_error_wrap (M : Matcher) (ctx : GoCtx) (r : LRequest) (p : Policy) :
    (∀ err, M p p.actions r.action = .error err →
      (stepPolicy M ctx r p).1 = .fatal (.withStack (.external err))) ∧
    (∀ err, M p p.actions r.action = .ok true → M p p.subjects r.subject = .error err →
      (stepPolicy M ctx r p).1 = .fatal (.external err)) ∧
    (∀ err, M p p.actions r.action = .ok true → M p p.subjects r.subject = .ok true →
      M p p.resources r.resource = .error err →
      (stepPolicy M ctx r p).1 = .fatal (.withStack (.external err))) := by
  refine ⟨?_, ?_, ?_⟩
  · intro err h1
    rcases stepPolicy_spec M ctx r p with ⟨e', hM, hs⟩ | ⟨hM, hs⟩ |
      ⟨hA', ⟨e', hM, hs⟩ | ⟨hM, hs⟩ | ⟨hS', ⟨e', hM, hs⟩ | ⟨hM, hs⟩ |
        ⟨hR', ⟨hc', hs⟩ | ⟨hc', ha, hs⟩ | ⟨hc', ha, hs⟩⟩⟩⟩
    · rw [h1] at hM
      cases hM
      rw [hs]
    · rw [h1] at hM; exact absurd hM (by simp)
    · rw [h1] at hA'; exact absurd hA' (by simp)
    · rw [h1] at hA'; exact absurd hA' (by simp)
    · rw [h1] at hA'; exact absurd hA' (by simp)
    · rw [h1] at hA'; exact absurd hA' (by simp)
    · rw [h1] at hA'; exact absurd hA' (by simp)
    · rw [h1] at hA'; exact absurd hA' (by simp)
    · rw [h1] at hA'; exact absurd hA' (by simp)
  · intro err h1 h2
    rcases stepPolicy_spec M ctx r p with ⟨e', hM, hs⟩ | ⟨hM, hs⟩ |
      ⟨hA', ⟨e', hM, hs⟩ | ⟨hM, hs⟩ | ⟨hS', ⟨e', hM, hs⟩ | ⟨hM, hs⟩ |
        ⟨hR', ⟨hc', hs⟩ | ⟨hc', ha, hs⟩ | ⟨hc', ha, hs⟩⟩⟩⟩
    · rw [h1] at hM; exact absurd hM (by simp)
    · rw [h1] at hM; exact absurd hM (by simp)
    · rw [h2] at hM
      cases hM
      rw [hs]
    · rw [h2] at hM; exact absurd hM (by simp)
    · rw [h2] at hS'; exact absurd hS' (by simp)
    · rw [h2] at hS'; exact absurd hS' (by simp)
    · rw [h2] at hS'; exact absurd hS' (by simp)
    · rw [h2] at hS'; exact absurd hS' (by simp)
    · rw [h2] at hS'; exact absurd hS' (by simp)
  · intro err h1 h2 h3
    rcases stepPolicy_spec M ctx r p with ⟨e', hM, hs⟩ | ⟨hM, hs⟩ |
      ⟨hA', ⟨e', hM, hs⟩ | ⟨hM, hs⟩ | ⟨hS', ⟨e', hM, hs⟩ | ⟨hM, hs⟩ |
        ⟨hR', ⟨hc', hs⟩ | ⟨hc', ha, hs⟩ | ⟨hc', ha, hs⟩⟩⟩⟩
    · rw [h1] at hM; exact absurd hM (by simp)
    · rw [h1] at hM; exact absurd hM (by simp)
    · rw [h2] at hM; exact absurd hM (by simp)
    · rw [h2] at hM; exact absurd hM (by simp)
    · rw [h3] at hM
      cases hM
      rw [hs]
    · rw [h3] at hM; exact absurd hM (by simp)
    · rw [h3] at hR'; exact absurd hR' (by simp)
    · rw [h3] at hR'; exact absurd hR' (by simp)
    · rw [h3] at hR'; exact absurd hR' (by simp)

/-- The probe kinds of one loop-body evaluation are a prefix of
action-subject-resource followed by condition probes, and condition probes
occur only after all three matches. -/
theorem stepPolicy_kinds (M : Matcher) (ctx : GoCtx) (r : LRequest) (p : Policy) :
    ∃ m n, m ≤ 3 ∧
      probeKinds (stepPolicy M ctx r p).2 =
        [PKind.mA, PKind.mS, PKind.mR].take m ++ List.replicate n .cond ∧
      (0 < n → m = 3) := by
  obtain ⟨n, hn⟩ := passesConditionsT_kinds ctx p r p.conditions
  rcases stepPolicy_spec M ctx r p with ⟨e', hM, hs⟩ | ⟨hM, hs⟩ |
    ⟨hA', ⟨e', hM, hs⟩ | ⟨hM, hs⟩ | ⟨hS', ⟨e', hM, hs⟩ | ⟨hM, hs⟩ |
      ⟨hR', ⟨hc', hs⟩ | ⟨hc', ha, hs⟩ | ⟨hc', ha, hs⟩⟩⟩⟩
  · exact ⟨1, 0, by simp, by rw [hs]; rfl, fun h => absurd h (by simp)⟩
  · exact ⟨1, 0, by simp, by rw [hs]; rfl, fun h => absurd h (by simp)⟩
  · exact ⟨2, 0, by simp, by rw [hs]; rfl, fun h => absurd h (by simp)⟩
  · exact ⟨2, 0, by simp, by rw [hs]; rfl, fun h => absurd h (by simp)⟩
  · exact ⟨3, 0, by simp, by rw [hs]; rfl, fun h => absurd h (by simp)⟩
  · exact ⟨3, 0, by simp, by rw [hs]; rfl, fun h => absurd h (by simp)⟩
  · refine ⟨3, n, by simp, ?_, fun _ => rfl⟩
    rw [hs]
    simp only [probeKinds, List.filterMap_cons] at hn ⊢
    rw [hn]
    rfl
  · refine ⟨3, n, by simp, ?_, fun _ => rfl⟩
    rw [hs]
    simp only [probeKinds, List.filterMap_cons] at hn ⊢
    rw [hn]
    rfl
  · refine ⟨3, n, by simp, ?_, fun _ => rfl⟩
    rw [hs]
    simp only [probeKinds, List.filterMap_cons] at hn ⊢
    rw [hn]
    rfl

/-! ## Claim theorems -/

theorem perm_all_eq {α : Type} (f : α → Bool) {l₁ l₂ : List α} (h : l₁.Perm l₂) :
    l₁.all f = l₂.all f := by
  induction h with
  | nil => rfl
  | cons x h ih => simp [List.all_cons, ih]
  | swap x y l => simp [List.all_cons, Bool.and_left_comm]
  | trans h1 h2 ih1 ih2 => rw [ih1, ih2]

/-- C1 (counterexample): as stated, deny-override fails when a Matcher
error occurs on an earlier candidate: `[pAllow, pBoom, pDeny]` contains
the fully matching deny policy `pDeny` (and the fully matching allow
policy `pAllow`), yet `DoPoliciesAllow` returns the wrapped match error of
`pBoom`, not `ForcefullyDenied`. -/
theorem deny_override_counterexample :
    ([pAllow, pBoom, pDeny].any
      (fun p => fullyMatchesB M0 () r0 p && !p.allowAccess)) = true ∧
    ([pAllow, pBoom, pDeny].any
      (fun p => fullyMatchesB M0 () r0 p && p.allowAccess)) = true ∧
    (doPoliciesAllow M0 () r0 [pAllow, pBoom, pDeny]).1 =
      some (.withStack (.external "boom")) ∧
    (doPoliciesAllow M0 () r0 [pAllow, pBoom, pDeny]).1 ≠
      some (.withStack .errRequestForcefullyDenied) := by
  decide

/-- C1 (amended): deny-override holds provided no earlier Matcher call
fails.  If some policy of the candidate list fully matches with deny
effect, `DoPoliciesAllow` never returns `nil`; and if moreover the Matcher
succeeds on every candidate, it returns exactly the stack-wrapped
`ForcefullyDenied` error, regardless of the deny policy's position. -/
theorem deny_override (M : Matcher) (ctx : GoCtx) (r : LRequest)
    (policies : List Policy) (p : Policy) (hp : p ∈ policies)
    (hfm : fullyMatchesB M ctx r p = true) (hdeny : p.allowAccess = false) :
    (doPoliciesAllow M ctx r policies).1 ≠ none ∧
    ((∀ q ∈ policies, matcherOkOn M r q = true) →
      (doPoliciesAllow M ctx r policies).1 =
        some (.withStack .errRequestForcefullyDenied)) :=
  ⟨doPoliciesLoop_ne_none_of_deny M ctx r policies policies false [] ⟨p, hp, hfm, hdeny⟩,
   fun hok =>
     doPoliciesLoop_denied_of_deny M ctx r policies policies false [] ⟨p, hp, hfm, hdeny⟩ hok⟩

/-- C1 (witness): on `[pAllow, pDeny]` (allow listed before deny) the deny
policy wins: the result is the wrapped `ForcefullyDenied`, not `nil`. -/
theorem deny_override_witness :
    fullyMatchesB M0 () r0 pDeny = true ∧ pDeny.allowAccess = false ∧
    (∀ q ∈ [pAllow, pDeny], matcherOkOn M0 r0 q = true) ∧
    (doPoliciesAllow M0 () r0 [pAllow, pDeny]).1 ≠ none ∧
    (doPoliciesAllow M0 () r0 [pAllow, pDeny]).1 =
      some (.withStack .errRequestForcefullyDenied) := by
  have h := deny_override M0 () r0 [pAllow, pDeny] pDeny
    (List.Mem.tail _ (List.Mem.head _)) (by decide) (by decide)
  exact ⟨by decide, by decide, by decide, h.1, h.2 (by decide)⟩

/-- C2 (counterexample): on a Matcher failure `DoPoliciesAllow` makes no
audit-logger call at all: the terminal matcher-error outcome on `[pBoom]`
leaves zero audit events, not exactly one. -/
theorem audit_exactly_once_counterexample :
    (doPoliciesAllow M0 () r0 [pBoom]).1 = some (.withStack (.external "boom")) ∧
    (auditEvents (doPoliciesAllow M0 () r0 [pBoom]).2).length = 0 := by
  exact ⟨by decide, by decide⟩

/-- C2 (amended): `DoPoliciesAllow` makes exactly one audit-logger call on
every terminal outcome that is not a matcher error (granted on `nil`,
rejected on `ForcefullyDenied` and `RequestDenied`), and zero on a
matcher-error outcome; every audit call receives the full candidate
list. -/
theorem audit_exactly_once (M : Matcher) (ctx : GoCtx) (r : LRequest)
    (policies : List Policy) :
    (auditEvents (doPoliciesAllow M ctx r policies).2).length =
      (if resIsInternalErr (doPoliciesAllow M ctx r policies).1 then 0 else 1) ∧
    ∀ ev ∈ auditEvents (doPoliciesAllow M ctx r policies).2,
      auditCand ev.call = some policies :=
  doPoliciesLoop_audit M ctx r policies policies false []

/-- C2 (witness): the allowed outcome on `[pAllow]` produces exactly one
audit event carrying the full candidate list. -/
theorem audit_exactly_once_witness :
    (auditEvents (doPoliciesAllow M0 () r0 [pAllow]).2).length =
      (if resIsInternalErr (doPoliciesAllow M0 () r0 [pAllow]).1 then 0 else 1) ∧
    ∀ ev ∈ auditEvents (doPoliciesAllow M0 () r0 [pAllow]).2,
      auditCand ev.call = some [pAllow] :=
  audit_exactly_once M0 () r0 [pAllow]

/-- C3: the default-wiring guard is a package-level `sync.Once`
(ladon.go:38), not a per-instance one.  Starting from a fresh process
(global flag unset), the first instance's `lazyInit` wires all three
defaults, but a second instance's `lazyInit` then runs the closure no more
and leaves every `nil` collaborator `nil` — contradicting the claim that
each instance gets its defaults on first use. -/
theorem lazyInit_global_once_bug :
    (lazyInit false ⟨none, none, none⟩).2 =
      ⟨some .builtin, some .builtin, some .builtin⟩ ∧
    (lazyInit false ⟨none, none, none⟩).1 = true ∧
    (lazyInit (lazyInit false ⟨none, none, none⟩).1 ⟨none, none, none⟩).2 =
      ⟨none, none, none⟩ := by
  decide

/-- C4 (counterexample): a subject-dimension Matcher error is returned
bare, not wrapped with call-stack context: on `[pSubjBoom]` the engine
returns the unwrapped collaborator error (ladon.go:97 `return err`). -/
theorem matcher_error_short_circuit_counterexample :
    (doPoliciesAllow M0 () r0 [pSubjBoom]).1 = some (.external "boom") ∧
    isStackWrapped (doPoliciesAllow M0 () r0 [pSubjBoom]).1 = false := by
  decide

/-- C4 (amended): if the run reaches policy N (all earlier candidates are
skipped or allow-matched) and a Matcher call of policy N fails, the engine
returns that error — wrapped with call-stack context for the action and
resource dimensions, bare for the subject dimension — spawns
`go Metric.RequestProcessingError` for policy N, and performs no Matcher or
Condition call on any policy after N. -/
theorem matcher_error_short_circuit (M : Matcher) (ctx : GoCtx) (r : LRequest)
    (pre : List Policy) (p : Policy) (post : List Policy)
    (hpre : ∀ q ∈ pre,
      (stepPolicy M ctx r q).1 = .skip ∨ (stepPolicy M ctx r q).1 = .allowMatch)
    (e : GoError) (hfat : (stepPolicy M ctx r p).1 = .fatal e) :
    (doPoliciesAllow M ctx r (pre ++ p :: post)).1 = some e ∧
    (∃ err, (⟨.reqProcessingError r (some p) err, true⟩ : Event) ∈
      (doPoliciesAllow M ctx r (pre ++ p :: post)).2) ∧
    (∀ ev ∈ (doPoliciesAllow M ctx r (pre ++ p :: post)).2,
      ∀ q', probeOwner ev.call = some q' → q' = p ∨ q' ∈ pre) ∧
    (∀ err, M p p.actions r.action = .error err → e = .withStack (.external err)) ∧
    (∀ err, M p p.actions r.action = .ok true →
      M p p.subjects r.subject = .error err → e = .external err) ∧
    (∀ err, M p p.actions r.action = .ok true → M p p.subjects r.subject = .ok true →
      M p p.resources r.resource = .error err → e = .withStack (.external err)) := by
  obtain ⟨a', d', hrun⟩ := doPoliciesLoop_prefix M ctx r (pre ++ p :: post) pre hpre
    (p :: post) false []
  rcases hsp : stepPolicy M ctx r p with ⟨sr, evs⟩
  rw [hsp] at hfat
  simp only [] at hfat
  subst hfat
  have hrest : doPoliciesLoop M ctx r (pre ++ p :: post) (p :: post) a' d' = (some e, evs) := by
    simp only [doPoliciesLoop, hsp]
  rw [hrest] at hrun
  have htr : doPoliciesAllow M ctx r (pre ++ p :: post) =
      (some e, pre.flatMap (fun q => (stepPolicy M ctx r q).2) ++ evs) := by
    rw [doPoliciesAllow, hrun]
  refine ⟨by rw [htr], ?_, ?_, ?_, ?_, ?_⟩
  · obtain ⟨err, hmem⟩ := stepPolicy_fatal_has_pe M ctx r p e (by rw [hsp])
    rw [hsp] at hmem
    exact ⟨err, by rw [htr]; exact List.mem_append_of_mem_right _ hmem⟩
  · intro ev hev q' hq'
    rw [htr] at hev
    rcases List.mem_append.mp hev with hev | hev
    · obtain ⟨q, hq, hev⟩ := List.mem_flatMap.mp hev
      rcases stepPolicy_owner M ctx r q ev hev with h | h
      · rw [hq'] at h
        cases h
        exact Or.inr hq
      · rw [hq'] at h; cases h
    · have hev' : ev ∈ (stepPolicy M ctx r p).2 := by rw [hsp]; exact hev
      rcases stepPolicy_owner M ctx r p ev hev' with h | h
      · rw [hq'] at h
        cases h
        exact Or.inl rfl
      · rw [hq'] at h; cases h
  · intro err h1
    have := (stepPolicy_error_wrap M ctx r p).1 err h1
    rw [hsp] at this
    cases this
    rfl
  · intro err h1 h2
    have := (stepPolicy_error_wrap M ctx r p).2.1 err h1 h2
    rw [hsp] at this
    cases this
    rfl
  · intro err h1 h2 h3
    have := (stepPolicy_error_wrap M ctx r p).2.2 err h1 h2 h3
    rw [hsp] at this
    cases this
    rfl

/-- C4 (witness): with the skipped `pCondFail` before it, the
subject-erroring `pSubjBoom` aborts the run with the bare error, and the
trailing `pAllow` is never probed. -/
theorem matcher_error_short_circuit_witness :
    (∀ q ∈ [pCondFail],
      (stepPolicy M0 () r0 q).1 = .skip ∨ (stepPolicy M0 () r0 q).1 = .allowMatch) ∧
    (stepPolicy M0 () r0 pSubjBoom).1 = .fatal (.external "boom") ∧
    (doPoliciesAllow M0 () r0 ([pCondFail] ++ pSubjBoom :: [pAllow])).1 =
      some (.external "boom") :=
  ⟨by decide, by decide,
    (matcher_error_short_circuit M0 () r0 [pCondFail] pSubjBoom [pAllow]
      (by decide) (.external "boom") (by decide)).1⟩

/-- C5 (counterexample): as stated, the claim fails when a deny policy
fully matches: on `[pDeny]` no policy fully matches with allow effect (no
policy sets `allowed = true`), yet the result is `ForcefullyDenied`, not
`RequestDenied`, and no `RequestNoMatch` metric is emitted. -/
theorem default_deny_counterexample :
    ([pDeny].any (fun p => fullyMatchesB M0 () r0 p && p.allowAccess)) = false ∧
    (doPoliciesAllow M0 () r0 [pDeny]).1 ≠ some (.withStack .errRequestDenied) ∧
    ((doPoliciesAllow M0 () r0 [pDeny]).2.any fun ev => isNoMatchCall ev.call) = false := by
  decide

/-- C5 (amended): if every candidate is skipped (non-matching dimension or
failing condition) — in particular for the empty candidate list — the
engine spawns `go Metric.RequestNoMatch`, synchronously logs the rejected
outcome with the candidates and the (empty) deciders, and returns the
stack-wrapped `RequestDenied` error. -/
theorem default_deny (M : Matcher) (ctx : GoCtx) (r : LRequest)
    (policies : List Policy)
    (h : ∀ p ∈ policies, (stepPolicy M ctx r p).1 = .skip) :
    (doPoliciesAllow M ctx r policies).1 = some (.withStack .errRequestDenied) ∧
    (⟨.reqNoMatch r, true⟩ : Event) ∈ (doPoliciesAllow M ctx r policies).2 ∧
    (⟨.logRejected r policies [], false⟩ : Event) ∈ (doPoliciesAllow M ctx r policies).2 :=
  doPoliciesLoop_all_skip M ctx r policies policies [] h

/-- C5 (witness): on the empty candidate list and on the
subject-mismatching `[pNoAct]` the outcome is `RequestDenied` with a
no-match metric and a rejected audit log. -/
theorem default_deny_witness :
    (doPoliciesAllow M0 () r0 []).1 = some (.withStack .errRequestDenied) ∧
    (∀ p ∈ [pNoAct], (stepPolicy M0 () r0 p).1 = .skip) ∧
    (doPoliciesAllow M0 () r0 [pNoAct]).1 = some (.withStack .errRequestDenied) ∧
    (⟨.reqNoMatch r0, true⟩ : Event) ∈ (doPoliciesAllow M0 () r0 [pNoAct]).2 :=
  ⟨(default_deny M0 () r0 [] (fun p hp => absurd hp (List.not_mem_nil p))).1,
   by decide,
   (default_deny M0 () r0 [pNoAct] (by decide)).1,
   (default_deny M0 () r0 [pNoAct] (by decide)).2.1⟩

/-- C6: for a policy whose three pattern dimensions all match, the policy
contributes to the decision (deny or allow match) exactly when every
(key, condition) pair of its condition map is fulfilled against
`request.context[key]` (absent keys passing the mapping's zero value,
`none`) and the request; if conditions fail the policy is skipped with no
error. -/
theorem condition_and_semantics (M : Matcher) (ctx : GoCtx) (r : LRequest)
    (p : Policy) (hA : M p p.actions r.action = .ok true)
    (hS : M p p.subjects r.subject = .ok true)
    (hR : M p p.resources r.resource = .ok true) :
    (((stepPolicy M ctx r p).1 = .denyMatch ∨ (stepPolicy M ctx r p).1 = .allowMatch) ↔
      p.conditions.all (fun kc => kc.2.fulfills ctx (r.context kc.1) r) = true) ∧
    (passesConditions ctx p r = false →
      (stepPolicy M ctx r p).1 = .skip ∧ ∀ e, (stepPolicy M ctx r p).1 ≠ .fatal e) := by
  have hd := stepPolicy_conditions_decide M ctx r p hA hS hR
  have hall : passesConditions ctx p r =
      p.conditions.all (fun kc => kc.2.fulfills ctx (r.context kc.1) r) := by
    rw [passesConditions, passesConditionsGo_eq_all]
  constructor
  · rcases hpc : passesConditions ctx p r with _ | _
    · rw [hpc] at hd hall
      rw [hd]
      simp [← hall]
    · rw [hpc] at hd hall
      rw [hd]
      rcases p.allowAccess with _ | _ <;> simp [← hall]
  · intro hpc
    rw [hpc] at hd
    exact ⟨by rw [hd]; rfl, fun e h => by rw [hd] at h; cases h⟩

/-- C6 (witness): `pCondFail` matches `r0` on all three dimensions but its
condition on the `"ip"` context value fails, so the policy is skipped. -/
theorem condition_and_semantics_witness :
    isOkTrue (M0 pCondFail pCondFail.actions r0.action) = true ∧
    isOkTrue (M0 pCondFail pCondFail.subjects r0.subject) = true ∧
    isOkTrue (M0 pCondFail pCondFail.resources r0.resource) = true ∧
    passesConditions () pCondFail r0 = false ∧
    (stepPolicy M0 () r0 pCondFail).1 = .skip :=
  ⟨by decide, by decide, by decide, by decide,
    ((condition_and_semantics M0 () r0 pCondFail
      ((isOkTrue_iff _).mp (by decide)) ((isOkTrue_iff _).mp (by decide))
      ((isOkTrue_iff _).mp (by decide))).2 (by decide)).1⟩

/-- C7: per-policy evaluation order is action, then subject, then
resource, then the conditions (conditions only after all three matches
report `true`); a non-matching dimension or failing conditions skip the
policy with no error, a Matcher error at any match step is fatal (with the
per-dimension wrapping of ladon.go:86/97/106); and the run probes the
candidates in input order, as the concatenation of the per-policy probe
sequences of the processed prefix. -/
theorem evaluation_order (M : Matcher) (ctx : GoCtx) (r : LRequest) (p : Policy)
    (policies : List Policy) :
    (∃ m n, m ≤ 3 ∧
      probeKinds (stepPolicy M ctx r p).2 =
        [PKind.mA, PKind.mS, PKind.mR].take m ++ List.replicate n .cond ∧
      (0 < n → m = 3)) ∧
    (M p p.actions r.action = .ok false → (stepPolicy M ctx r p).1 = .skip) ∧
    (M p p.actions r.action = .ok true → M p p.subjects r.subject = .ok false →
      (stepPolicy M ctx r p).1 = .skip) ∧
    (M p p.actions r.action = .ok true → M p p.subjects r.subject = .ok true →
      M p p.resources r.resource = .ok false → (stepPolicy M ctx r p).1 = .skip) ∧
    (M p p.actions r.action = .ok true → M p p.subjects r.subject = .ok true →
      M p p.resources r.resource = .ok true → passesConditions ctx p r = false →
      (stepPolicy M ctx r p).1 = .skip) ∧
    (∀ err, M p p.actions r.action = .error err →
      (stepPolicy M ctx r p).1 = .fatal (.withStack (.external err))) ∧
    (∀ err, M p p.actions r.action = .ok true →
      M p p.subjects r.subject = .error err →
      (stepPolicy M ctx r p).1 = .fatal (.external err)) ∧
    (∀ err, M p p.actions r.action = .ok true → M p p.subjects r.subject = .ok true →
      M p p.resources r.resource = .error err →
      (stepPolicy M ctx r p).1 = .fatal (.withStack (.external err))) ∧
    (∃ k ≤ policies.length,
      probeEvents (doPoliciesAllow M ctx r policies).2 =
        (policies.take k).flatMap (fun q => probeEvents (stepPolicy M ctx r q).2)) := by
  refine ⟨stepPolicy_kinds M ctx r p,
    (stepPolicy_dim_false_skip M ctx r p).1,
    (stepPolicy_dim_false_skip M ctx r p).2.1,
    (stepPolicy_dim_false_skip M ctx r p).2.2,
    ?_,
    (stepPolicy_error_wrap M ctx r p).1,
    (stepPolicy_error_wrap M ctx r p).2.1,
    (stepPolicy_error_wrap M ctx r p).2.2,
    doPoliciesLoop_probes M ctx r policies policies false []⟩
  intro hA hS hR hpc
  rw [stepPolicy_conditions_decide M ctx r p hA hS hR, hpc]
  rfl

/-- C7 (witness): `pCondOk`'s probes are action, subject, resource, then
one condition; the action-mismatching `pNoAct` is skipped after its single
action probe. -/
theorem evaluation_order_witness :
    probeKinds (stepPolicy M0 () r0 pCondOk).2 =
      [PKind.mA, PKind.mS, PKind.mR].take 3 ++ List.replicate 1 .cond ∧
    probeKinds (stepPolicy M0 () r0 pNoAct).2 =
      [PKind.mA, PKind.mS, PKind.mR].take 1 ++ List.replicate 0 .cond ∧
    (stepPolicy M0 () r0 pNoAct).1 = .skip :=
  ⟨by decide, by decide, (evaluation_order M0 () r0 pNoAct [pNoAct]).2.1 rfl⟩

/-- C8 (counterexample): not every Metric notification is dispatched as a
background task: on the allowed outcome for `[pAllow]`,
`Metric.RequestAllowedBy` is invoked synchronously (ladon.go:139 lacks
`go`), so the decision's return waits for it. -/
theorem metric_async_counterexample :
    (doPoliciesAllow M0 () r0 [pAllow]).1 = none ∧
    ((doPoliciesAllow M0 () r0 [pAllow]).2.any
      (fun ev => isMetricCall ev.call && isReqAllowedByCall ev.call && !ev.async)) = true :=
  ⟨by decide, by decide⟩

/-- C8 (amended): every Metric notification emitted by `DoPoliciesAllow`
or `IsAllowed` (`RequestDeniedBy`, `RequestNoMatch`,
`RequestProcessingError`) is spawned in a background goroutine — except
`RequestAllowedBy`, which is called synchronously before the decision
returns. -/
theorem metric_dispatch (M : Matcher) (mgr : Manager) (ctx : GoCtx) (r : LRequest)
    (policies : List Policy) :
    (∀ ev ∈ (doPoliciesAllow M ctx r policies).2, isMetricCall ev.call = true →
      ev.async = !(isReqAllowedByCall ev.call)) ∧
    (∀ ev ∈ (isAllowed M mgr ctx r).2, isMetricCall ev.call = true →
      ev.async = !(isReqAllowedByCall ev.call)) := by
  constructor
  · exact doPoliciesLoop_metric_async M ctx r policies policies false []
  · intro ev hev hm
    unfold isAllowed at hev
    cases hmgr : mgr ctx r with
    | error e =>
      rw [hmgr] at hev
      simp at hev
      subst hev
      rfl
    | ok ps =>
      rw [hmgr] at hev
      exact doPoliciesLoop_metric_async M ctx r ps ps false [] ev hev hm

/-- C8 (witness): the `RequestProcessingError` spawned for the erroring
`pBoom` is asynchronous. -/
theorem metric_dispatch_witness :
    ((⟨.reqProcessingError r0 (some pBoom) "boom", true⟩ : Event) ∈
      (doPoliciesAllow M0 () r0 [pBoom]).2) ∧
    ((⟨.reqProcessingError r0 (some pBoom) "boom", true⟩ : Event).async =
      !(isReqAllowedByCall (Call.reqProcessingError r0 (some pBoom) "boom"))) := by
  have hmem : (⟨.reqProcessingError r0 (some pBoom) "boom", true⟩ : Event) ∈
      (doPoliciesAllow M0 () r0 [pBoom]).2 := by
    rw [show (doPoliciesAllow M0 () r0 [pBoom]).2 =
      [⟨.matcherMatches .action pBoom pBoom.actions r0.action, false⟩,
       ⟨.reqProcessingError r0 (some pBoom) "boom", true⟩] from rfl]
    exact List.Mem.tail _ (List.Mem.head _)
  exact ⟨hmem, (metric_dispatch M0 mgr0 () r0 [pBoom]).1 _ hmem rfl⟩

/-- C9: whenever `DoPoliciesAllow` returns the (wrapped) `RequestDenied`
error, the only audit call in the run is the rejected-log with the full
candidate list and an exactly empty deciders list: a fully matching policy
either returns `ForcefullyDenied` at once or sets `allowed = true`, so the
end-of-loop rejected path is reachable only with zero appended deciders. -/
theorem requestDenied_empty_deciders (M : Matcher) (ctx : GoCtx) (r : LRequest)
    (policies : List Policy)
    (h : (doPoliciesAllow M ctx r policies).1 = some (.withStack .errRequestDenied)) :
    ∀ ev ∈ (doPoliciesAllow M ctx r policies).2, isAuditCall ev.call = true →
      ev = ⟨.logRejected r policies [], false⟩ :=
  doPoliciesLoop_requestDenied_deciders M ctx r policies policies false []
    (fun _ => rfl) h

/-- C9 (witness): the condition-failing `pCondFail` run denies by default
and its single audit event is the rejected-log with empty deciders. -/
theorem requestDenied_empty_deciders_witness :
    (doPoliciesAllow M0 () r0 [pCondFail]).1 = some (.withStack .errRequestDenied) ∧
    ∀ ev ∈ (doPoliciesAllow M0 () r0 [pCondFail]).2, isAuditCall ev.call = true →
      ev = ⟨.logRejected r0 [pCondFail] [], false⟩ :=
  ⟨by decide, requestDenied_empty_deciders M0 () r0 [pCondFail] (by decide)⟩

/-- C10: `passesConditions` is independent of the iteration order of the
condition map: it equals the conjunction of `Fulfills` over all
(key, condition) pairs, so permuting the pairs yields the same boolean. -/
theorem conditions_order_independent (ctx : GoCtx) (r : LRequest) (p q : Policy)
    (h : p.conditions.Perm q.conditions) :
    passesConditions ctx p r = passesConditions ctx q r ∧
    passesConditions ctx p r =
      p.conditions.all (fun kc => kc.2.fulfills ctx (r.context kc.1) r) := by
  constructor
  · rw [passesConditions, passesConditions, passesConditionsGo_eq_all,
      passesConditionsGo_eq_all]
    exact perm_all_eq _ h
  · rw [passesConditions, passesConditionsGo_eq_all]

/-- C10 (witness): swapping `pTwo`'s two conditions leaves
`passesConditions` unchanged. -/
theorem conditions_order_independent_witness :
    pTwo.conditions.Perm pTwoSwap.conditions ∧
    passesConditions () pTwo r0 = passesConditions () pTwoSwap r0 := by
  have hperm : pTwo.conditions.Perm pTwoSwap.conditions :=
    List.Perm.swap ("a", condEq "1") ("ip", condEq "8.8.8.8") []
  exact ⟨hperm, (conditions_order_independent () r0 pTwo pTwoSwap hperm).1⟩
